import Mathlib

/-!
Verification development for the Teral contract-execution pipeline.

Each definition below is a shallow embedding of a function of the Rust
source tree (file and symbol named in the doc comment).  Machine integers
are modelled as `Nat` with explicit reductions modulo `2 ^ w` at the
points where the Rust code wraps; byte strings are `List Nat`; fallible
Rust code returns `Option` or `Except`; Rust panics (failed `assert!`,
out-of-bounds indexing, `unwrap` on `Err`) are modelled by a dedicated
error value or by `Option.none` at the call sites where they can occur.
-/

namespace Teral

/-! ### Opcodes (src/src/contracts/language.rs, `enum Opcode`) -/

/-- The VM opcode set, from `enum Opcode` in src/src/contracts/language.rs. -/
inductive Opcode where
  | Terminate
  | Add
  | Sub
  | Mul
  | Div
  | Eqi
  | Lt
  | Gt
  | Geq
  | Leq
  | Store
  | Get
  | Push (n : Nat)
  | Swap (n : Nat)
  | MoveToReturn (n : Nat)
  | CopyToReturn (n : Nat)
  | CopyToMain (n : Nat)
  | ClearReturn
  | Jumpif
  | Jumpifnot
  | Jump
  | Dup
deriving DecidableEq, Repr

namespace Opcode

/-- Decoder `Opcode::from_u8` (language.rs lines 53-79).  The byte is a
`Nat`; every call site feeds it values below 256.  The range arms mirror
the Rust `match` arms byte for byte, including the subtraction constants
`opcode - 0x06`, `opcode - 0x07`, `opcode - 0x4a`, `opcode - 0x6c` and
`opcode - 0x6d` exactly as written in the source. -/
def from_u8 (opcode : Nat) : Option Opcode :=
  if opcode = 0x00 then some .Terminate
  else if opcode = 0x01 then some .Add
  else if opcode = 0x02 then some .Sub
  else if opcode = 0x03 then some .Mul
  else if opcode = 0x04 then some .Div
  else if opcode = 0x05 then some .Store
  else if opcode = 0x06 then some .Get
  else if 0x07 ≤ opcode ∧ opcode ≤ 0x26 then some (.Push (opcode - 0x06))
  else if 0x27 ≤ opcode ∧ opcode ≤ 0x47 then some (.Swap (opcode - 0x07))
  else if opcode = 0x48 then some .Jumpif
  else if opcode = 0x49 then some .Jump
  else if 0x4a ≤ opcode ∧ opcode ≤ 0x6a then some (.CopyToMain (opcode - 0x4a))
  else if opcode = 0x6b then some .Dup
  else if opcode = 0x6c then some .ClearReturn
  else if 0x6d ≤ opcode ∧ opcode ≤ 0x8d then some (.MoveToReturn (opcode - 0x6c))
  else if 0x8e ≤ opcode ∧ opcode ≤ 0xae then some (.CopyToReturn (opcode - 0x6d))
  else if opcode = 0xaf then some .Eqi
  else if opcode = 0xb0 then some .Lt
  else if opcode = 0xb1 then some .Gt
  else if opcode = 0xb2 then some .Geq
  else if opcode = 0xb3 then some .Leq
  else if opcode = 0xb4 then some .Jumpifnot
  else none

/-- Encoder `Opcode::to_u8` (language.rs lines 81-106).  The family bases
`0x07 + n - 1`, `0x6d + n - 1`, `0x8e + n - 1`, `0x4b + n - 1` and
`0x27 + n - 1` are the source's expressions; for the 1-based counts
`1 ≤ n ≤ 32` used by the code they never wrap a byte. -/
def to_u8 : Opcode → Nat
  | .Terminate => 0x00
  | .Add => 0x01
  | .Sub => 0x02
  | .Mul => 0x03
  | .Div => 0x04
  | .Eqi => 0xaf
  | .Lt => 0xb0
  | .Gt => 0xb1
  | .Geq => 0xb2
  | .Leq => 0xb3
  | .Store => 0x05
  | .Get => 0x06
  | .Push n => 0x07 + n - 1
  | .MoveToReturn n => 0x6d + n - 1
  | .CopyToReturn n => 0x8e + n - 1
  | .CopyToMain n => 0x4b + n - 1
  | .Swap n => 0x27 + n - 1
  | .Jumpif => 0x48
  | .Jumpifnot => 0xb4
  | .Jump => 0x49
  | .Dup => 0x6b
  | .ClearReturn => 0x6c

end Opcode

/-- C4: decoding the encoded byte does not return the original opcode for
the `Swap` and `CopyToReturn` families: `from_u8` subtracts `0x07`
(resp. `0x6d`) where the encoder added `0x26` (resp. `0x8d`), so
`Swap(1)` encodes to `0x27` but decodes to `Swap(32)`, and
`CopyToReturn(1)` encodes to `0x8e` but decodes to `CopyToReturn(33)`;
the claimed round-trip `from_u8 (to_u8 op) = some op` therefore fails. -/
theorem opcode_roundtrip_fails_for_swap_and_copytoreturn :
    Opcode.from_u8 (Opcode.to_u8 (.Swap 1)) = some (.Swap 32) ∧
    Opcode.from_u8 (Opcode.to_u8 (.CopyToReturn 1)) = some (.CopyToReturn 33) ∧
    some (Opcode.Swap 32) ≠ some (Opcode.Swap 1) ∧
    some (Opcode.CopyToReturn 33) ≠ some (Opcode.CopyToReturn 1) := by
  refine ⟨by decide, by decide, by decide, by decide⟩

/-! ### VM state (src/src/contracts/language.rs, `struct Stack`, `struct Vm`) -/

/-- Wrap-around modulus of the 256-bit `U256` values held on the stacks. -/
def M256 : Nat := 2 ^ 256

/-- VM errors, from `enum VmError` in language.rs lines 12-24.  The extra
constructor `panicked` models Rust panics that the source can raise
inside `advance` (the failed `assert!` in `Stack::swap`, out-of-bounds
slice indexing, and arithmetic overflow of the `U256` operators, which
the `uint` crate turns into a panic). -/
inductive VmError where
  | shouldStop
  | stackUnderflow
  | stackOverflow
  | expectedValue (remaining : Nat)
  | invalidJump (target : Nat) (len : Nat)
  | panicked
deriving DecidableEq, Repr

/-- The two fixed-capacity operand stacks, from `struct Stack` in
language.rs lines 109-115.  `stack` and `returnStack` are the backing
arrays `[U256; 32]` as 32-element lists; `stackPos` and `returnStackPos`
are the 1-based cursor fields `stack_pos` / `return_stack_pos`. -/
structure Stack where
  stack : List Nat
  returnStack : List Nat
  stackPos : Nat
  returnStackPos : Nat
deriving DecidableEq, Repr

namespace Stack

/-- `Stack::new` (language.rs lines 118-125): zero-filled arrays, both
cursors start at 1. -/
def new : Stack :=
  { stack := List.replicate 32 0
    returnStack := List.replicate 32 0
    stackPos := 1
    returnStackPos := 1 }

/-- `Stack::pop` (language.rs lines 141-149): underflow when the cursor
is 1; otherwise decrement the cursor, read the slot below it and zero
that slot. -/
def pop (s : Stack) : Except VmError (Nat × Stack) :=
  if s.stackPos = 1 then .error .stackUnderflow
  else
    .ok (s.stack.getD (s.stackPos - 2) 0,
      { s with stack := s.stack.set (s.stackPos - 2) 0, stackPos := s.stackPos - 1 })

/-- `Stack::push` (language.rs lines 155-163): overflow when the cursor
exceeds 32; otherwise write at `stack_pos - 1` and increment. -/
def push (s : Stack) (value : Nat) : Except VmError Stack :=
  if s.stackPos > 32 then .error .stackOverflow
  else .ok { s with stack := s.stack.set (s.stackPos - 1) value, stackPos := s.stackPos + 1 }

/-- `Stack::push_to_return` (language.rs lines 165-173). -/
def pushToReturn (s : Stack) (value : Nat) : Except VmError Stack :=
  if s.returnStackPos > 32 then .error .stackOverflow
  else
    .ok { s with
      returnStack := s.returnStack.set (s.returnStackPos - 1) value
      returnStackPos := s.returnStackPos + 1 }

/-- `Stack::push_multiple_to_return` (language.rs lines 134-139). -/
def pushMultipleToReturn (s : Stack) : List Nat → Except VmError Stack
  | [] => .ok s
  | v :: vs => do
    let s' ← s.pushToReturn v
    s'.pushMultipleToReturn vs

/-- `Stack::swap` (language.rs lines 175-179): `assert!(nth <= 32)` then
`Vec::swap(stack_pos - 1, nth - 1)`.  A failed assertion, a zero `nth`
(whose `nth - 1` underflows the `usize` index) or an out-of-bounds swap
index panics, modelled by `VmError.panicked`. -/
def swap (s : Stack) (nth : Nat) : Except VmError Stack :=
  if nth > 32 then .error .panicked
  else if nth = 0 then .error .panicked
  else if s.stackPos - 1 ≥ 32 then .error .panicked
  else
    let a := s.stack.getD (s.stackPos - 1) 0
    let b := s.stack.getD (nth - 1) 0
    .ok { s with stack := (s.stack.set (s.stackPos - 1) b).set (nth - 1) a }

/-- `Stack::dup` (language.rs lines 181-188): overflow when
`stack_pos >= 32`; otherwise copy slot `stack_pos - 1` into slot
`stack_pos`.  The source neither reads the top slot (which sits at
`stack_pos - 2`) nor increments `stack_pos`. -/
def dup (s : Stack) : Except VmError Stack :=
  if s.stackPos ≥ 32 then .error .stackOverflow
  else .ok { s with stack := s.stack.set s.stackPos (s.stack.getD (s.stackPos - 1) 0) }

end Stack

/-- The KV-store handle, `Arc<dyn Storage>`: a byte-keyed read map.
Only `Storage::get` is ever invoked by the VM (language.rs line 417);
the VM source contains no call to `Storage::set`. -/
def KvGet : Type := List Nat → Option (List Nat)

/-- The SHA3-256 digest function used for storage slot derivation,
kept abstract: digests of byte lists. -/
def Sha3 : Type := List Nat → List Nat

/-- Little-endian byte decoding, `U256::from_little_endian`. -/
def fromLE (bytes : List Nat) : Nat :=
  bytes.foldr (fun b acc => acc * 256 + b) 0

/-- Little-endian encoding of `v` into `w` bytes (`to_le_bytes` /
`to_little_endian`). -/
def toLE (w : Nat) (v : Nat) : List Nat :=
  (List.range w).map fun i => v / 256 ^ i % 256

/-- The VM state, from `struct Vm` in language.rs lines 204-212:
two stacks, the code, the byte program counter `index`, the terminated
flag, the pending stores list and the 32-byte contract identity.  The
read-only storage handle is passed to `advance` separately. -/
structure Vm where
  stack : Stack
  opcodes : List Nat
  index : Nat
  terminated : Bool
  stores : List (Nat × Nat)
  contractHash : List Nat
deriving DecidableEq, Repr

namespace Vm

/-- `Vm::should_stop` (language.rs lines 261-263). -/
def shouldStop (vm : Vm) : Bool :=
  vm.terminated || vm.index ≥ vm.opcodes.length

/-- `Vm::get_from_storage` (language.rs lines 408-419): hash
`map_index.to_le_bytes() || key_le_32 || contract_hash` with SHA3-256,
fetch the value and decode it little-endian. -/
def getFromStorage (sha3 : Sha3) (storage : KvGet) (vm : Vm)
    (mapIndex : Nat) (key : Nat) : Option Nat :=
  (storage (sha3 (toLE 8 mapIndex ++ toLE 32 key ++ vm.contractHash))).map fromLE

/-- Pop `n` values in order (the loop in the `MoveToReturn` arm,
language.rs lines 344-347), returning them in pop order. -/
def popN (s : Stack) : Nat → Except VmError (List Nat × Stack)
  | 0 => .ok ([], s)
  | n + 1 => do
    let (v, s') ← s.pop
    let (vs, s'') ← popN s' n
    .ok (v :: vs, s'')

/-- `Vm::advance` (language.rs lines 265-406): fetch the byte at `index`
(an invalid opcode or exhausted code is `ShouldStop`), bump `index`,
then interpret the opcode.  Each arm mirrors the corresponding Rust
`match` arm; the `U256` operators of the `uint` crate panic on overflow
or underflow, modelled by `VmError.panicked`. -/
def advance (sha3 : Sha3) (storage : KvGet) (vm : Vm) : Except VmError Vm :=
  if vm.shouldStop then .error .shouldStop
  else
    match Opcode.from_u8 (vm.opcodes.getD vm.index 0) with
    | none => .error .shouldStop
    | some op =>
      let vm := { vm with index := vm.index + 1 }
      match op with
      | .Terminate => .ok { vm with terminated := true }
      | .Add => do
        let (rhs, s1) ← vm.stack.pop
        let (lhs, s2) ← s1.pop
        if lhs + rhs ≥ M256 then .error .panicked
        else do
          let s3 ← s2.push (lhs + rhs)
          .ok { vm with stack := s3 }
      | .Sub => do
        let (rhs, s1) ← vm.stack.pop
        let (lhs, s2) ← s1.pop
        if lhs < rhs then .error .panicked
        else do
          let s3 ← s2.push (lhs - rhs)
          .ok { vm with stack := s3 }
      | .Mul => do
        let (rhs, s1) ← vm.stack.pop
        let (lhs, s2) ← s1.pop
        if lhs * rhs ≥ M256 then .error .panicked
        else do
          let s3 ← s2.push (lhs * rhs)
          .ok { vm with stack := s3 }
      | .Div => do
        let (rhs, s1) ← vm.stack.pop
        let (lhs, s2) ← s1.pop
        let s3 ← s2.push (if rhs = 0 then 0 else lhs / rhs)
        .ok { vm with stack := s3 }
      | .Eqi => do
        let (rhs, s1) ← vm.stack.pop
        let (lhs, s2) ← s1.pop
        let s3 ← s2.push (if lhs = rhs then 1 else 0)
        .ok { vm with stack := s3 }
      | .Lt => do
        let (rhs, s1) ← vm.stack.pop
        let (lhs, s2) ← s1.pop
        let s3 ← s2.push (if lhs < rhs then 1 else 0)
        .ok { vm with stack := s3 }
      | .Gt => do
        let (rhs, s1) ← vm.stack.pop
        let (lhs, s2) ← s1.pop
        let s3 ← s2.push (if lhs > rhs then 1 else 0)
        .ok { vm with stack := s3 }
      | .Geq => do
        let (rhs, s1) ← vm.stack.pop
        let (lhs, s2) ← s1.pop
        let s3 ← s2.push (if lhs ≥ rhs then 1 else 0)
        .ok { vm with stack := s3 }
      | .Leq => do
        let (rhs, s1) ← vm.stack.pop
        let (lhs, s2) ← s1.pop
        let s3 ← s2.push (if lhs ≤ rhs then 1 else 0)
        .ok { vm with stack := s3 }
      | .Store => do
        let (value, s1) ← vm.stack.pop
        let (key, s2) ← s1.pop
        .ok { vm with stack := s2, stores := vm.stores ++ [(key, value)] }
      | .Get => do
        let (key, s1) ← vm.stack.pop
        match getFromStorage sha3 storage vm 1 key with
        | some value => do
          let s2 ← s1.push value
          .ok { vm with stack := s2 }
        | none => do
          let s2 ← s1.push 0
          .ok { vm with stack := s2 }
      | .Push n =>
        let vm := { vm with index := vm.index + n }
        if vm.index > vm.opcodes.length then
          .error (.expectedValue (vm.index - vm.opcodes.length))
        else do
          let value := fromLE ((vm.opcodes.drop (vm.index - n)).take n)
          let s1 ← vm.stack.push value
          .ok { vm with stack := s1 }
      | .MoveToReturn n => do
        let (poped, s1) ← popN vm.stack n
        let s2 ← s1.pushMultipleToReturn poped.reverse
        .ok { vm with stack := s2 }
      | .CopyToReturn n =>
        if n > vm.stack.stackPos then .error .panicked
        else if 1 ≤ n ∧ vm.stack.stackPos - 1 ≥ 32 then .error .panicked
        else do
          let initialPos := vm.stack.stackPos - n
          let values := (List.range n).map fun i => vm.stack.stack.getD (initialPos + i) 0
          let s1 ← vm.stack.pushMultipleToReturn values
          .ok { vm with stack := s1 }
      | .CopyToMain n =>
        if n ≥ 32 then .error .panicked
        else do
          let s1 ← vm.stack.push (vm.stack.returnStack.getD n 0)
          .ok { vm with stack := s1 }
      | .ClearReturn =>
        .ok { vm with stack :=
          { vm.stack with returnStack := List.replicate 32 0, returnStackPos := 1 } }
      | .Swap n => do
        let s1 ← vm.stack.swap n
        .ok { vm with stack := s1 }
      | .Jumpif => do
        let (offset, s1) ← vm.stack.pop
        let (cond, s2) ← s1.pop
        if cond = 0 then
          if offset ≤ vm.opcodes.length - vm.index then
            .ok { vm with stack := s2, index := vm.index + offset }
          else .error (.invalidJump (offset + vm.index) vm.opcodes.length)
        else .ok { vm with stack := s2 }
      | .Jumpifnot => do
        let (offset, s1) ← vm.stack.pop
        let (cond, s2) ← s1.pop
        if cond ≠ 0 then
          if offset ≤ vm.opcodes.length - vm.index then
            .ok { vm with stack := s2, index := vm.index + offset }
          else .error (.invalidJump (offset + vm.index) vm.opcodes.length)
        else .ok { vm with stack := s2 }
      | .Jump => do
        let (offset, s1) ← vm.stack.pop
        if offset ≤ vm.opcodes.length - vm.index then
          .ok { vm with stack := s1, index := vm.index + offset }
        else .error (.invalidJump (vm.index + offset) vm.opcodes.length)
      | .Dup => do
        let s1 ← vm.stack.dup
        .ok { vm with stack := s1 }

/-- `Vm::with_arguments` (language.rs lines 231-251): fresh stacks with
the arguments pushed onto the locals stack. -/
def withArguments (contractHash : List Nat) (opcodes : List Nat)
    (args : List Nat) : Except VmError Vm := do
  let stack ← Stack.new.pushMultipleToReturn args
  .ok { stack := stack, opcodes := opcodes, index := 0, terminated := false,
        stores := [], contractHash := contractHash }

end Vm

/-- The `while !vm.should_stop() { vm.advance().unwrap() }` loop of
`execute` (language.rs lines 426-429), with an explicit fuel argument:
`runVm_fuel_irrelevant` below shows that any fuel above
`opcodes.length - index` gives the same result, so the fuelled loop
agrees with the source's unbounded loop (every `advance` strictly
increases `index`, see `Vm.advance_index_increases`).  A VM error makes
the `unwrap` panic: result `none`. -/
def runVm (sha3 : Sha3) (storage : KvGet) : Nat → Vm → Option Vm
  | 0, _ => none
  | fuel + 1, vm =>
    if vm.shouldStop then some vm
    else
      match Vm.advance sha3 storage vm with
      | .error _ => none
      | .ok vm' => runVm sha3 storage fuel vm'

/-- `execute` (language.rs lines 422-434): build the VM with contract
hash `[0; 32]` and the given code and arguments, then run the loop to
completion.  The function inspects the final VM only through debug
printing; in particular it never applies `vm.stores` to the storage,
and the storage handle is only ever read (by `Get`). -/
def execute (sha3 : Sha3) (storage : KvGet) (opcodes : List Nat)
    (args : List Nat) : Option Vm :=
  match Vm.withArguments (List.replicate 32 0) opcodes args with
  | .error _ => none
  | .ok vm => runVm sha3 storage (vm.opcodes.length + 1) vm

/-- A successful `advance` leaves the code unchanged and strictly
increases the program counter: every arm of the source first runs
`self.index += 1` (in `next`), and `Push` and the jumps only add to
`index` further.  This is why the execution loop terminates and why the
fuelled `runVm` below is faithful to the source's unbounded loop. -/
theorem Vm.advance_ok_shape (sha3 : Sha3) (storage : KvGet) (vm vm' : Vm)
    (h : Vm.advance sha3 storage vm = .ok vm') :
    vm'.opcodes = vm.opcodes ∧ vm.index < vm'.index := by
  unfold Vm.advance at h
  split at h
  · exact absurd h (by simp)
  · split at h
    · exact absurd h (by simp)
    · rename_i op hop
      cases op <;>
        simp only [bind, Except.bind, Vm.getFromStorage] at h <;>
        (repeat' split at h) <;>
        (try cases h) <;> simp_all <;> omega

/-- Any two sufficient fuels give `runVm` the same result, so the fuel
chosen in `execute` is immaterial: the fuelled loop computes exactly
what the source's `while !should_stop` loop computes. -/
theorem runVm_fuel_irrelevant (sha3 : Sha3) (storage : KvGet) :
    ∀ f g vm, vm.opcodes.length - vm.index < f →
      vm.opcodes.length - vm.index < g →
      runVm sha3 storage f vm = runVm sha3 storage g vm := by
  intro f
  induction f with
  | zero => intro g vm hf; omega
  | succ f ih =>
    intro g vm hf hg
    obtain ⟨g', rfl⟩ : ∃ g', g = g' + 1 := ⟨g - 1, by omega⟩
    show runVm sha3 storage (f + 1) vm = runVm sha3 storage (g' + 1) vm
    unfold runVm
    by_cases hstop : vm.shouldStop
    · simp [hstop]
    · simp only [hstop, if_false]
      match hadv : Vm.advance sha3 storage vm with
      | .error e => rfl
      | .ok vm' =>
        have hshape := Vm.advance_ok_shape sha3 storage vm vm' hadv
        have hidx : vm.index < vm.opcodes.length := by
          unfold Vm.shouldStop at hstop
          simp only [Bool.or_eq_true, decide_eq_true_eq, not_or] at hstop
          omega
        have hlen : vm'.opcodes.length = vm.opcodes.length := by rw [hshape.1]
        have hlt := hshape.2
        exact ih g' vm' (by omega) (by omega)

instance instDecEqExcept {ε α : Type} [DecidableEq ε] [DecidableEq α] :
    DecidableEq (Except ε α) := fun a b =>
  match a, b with
  | .error e, .error e' =>
    if h : e = e' then .isTrue (congrArg Except.error h)
    else .isFalse fun hh => h (Except.error.inj hh)
  | .error _, .ok _ => .isFalse (by intro hh; cases hh)
  | .ok _, .error _ => .isFalse (by intro hh; cases hh)
  | .ok v, .ok v' =>
    if h : v = v' then .isTrue (congrArg Except.ok h)
    else .isFalse fun hh => h (Except.ok.inj hh)

/-- A hash function instance used to evaluate the VM at concrete inputs
(the programs below never execute `Get`, the only opcode that hashes). -/
def sha0 : Sha3 := fun _ => []

/-- An empty KV store used to evaluate the VM at concrete inputs. -/
def kv0 : KvGet := fun _ => none

/-- C2: the bytecode `Push(1) 5; Push(1) 7; Store; Terminate` terminates
normally with the pending store `(key 5, value 7)` collected, yet
`execute` never applies it to the KV store: the source's `execute`
(language.rs lines 422-434) drops the final VM, and no code in the
repository ever writes `vm.stores` through `Storage::set` — which is
also why the storage handle appears in this embedding as the read-only
`KvGet`. -/
theorem execute_never_applies_pending_stores :
    (execute sha0 kv0 [0x07, 5, 0x07, 7, 0x05, 0x00] []).map
        (fun vm => (vm.terminated, vm.stores)) =
      some (true, [(5, 7)]) := by decide

/-- A one-value stack: the result of `Stack::new().push(5)` (element 5
at slot 0, `stack_pos = 2`). -/
def stackOne5 : Stack :=
  { stack := (List.replicate 32 0).set 0 5
    returnStack := List.replicate 32 0
    stackPos := 2
    returnStackPos := 1 }

/-- A VM about to execute a single `Dup` opcode with the one-value stack
`stackOne5`. -/
def vmDup : Vm :=
  { stack := stackOne5, opcodes := [0x6b], index := 0, terminated := false,
    stores := [], contractHash := List.replicate 32 0 }

/-- C6: executing `Dup` on a stack holding the single value 5 (non-empty
and far below capacity) changes nothing but the program counter: the
stack array and `stack_pos` are identical afterwards, so no value was
pushed and the top was not duplicated.  `Stack::dup` writes slot
`stack_pos` (two above the top, copying from the cleared slot
`stack_pos - 1` instead of the top at `stack_pos - 2`) and never
increments `stack_pos`. -/
theorem dup_leaves_stack_unchanged :
    Stack.new.push 5 = .ok stackOne5 ∧
    stackOne5.stackPos = 2 ∧
    Vm.advance sha0 kv0 vmDup = .ok { vmDup with index := 1 } := by
  refine ⟨by decide, rfl, by decide⟩

/-! ### Compiler `require` lowering (src/src/contracts/compiler/mod.rs) -/

/-- The single-pass code generator state, from `struct Compiler` in
compiler/mod.rs lines 35-42, restricted to the fields that the `require`
lowering touches (`input`, `index`, `output`); the `functions` and
`binded_context` fields are not read or written by `require` or `bump`.
The token type is kept abstract because `require` never inspects a
token. -/
structure Compiler (Tok : Type) where
  input : List Tok
  index : Nat
  output : List Nat

namespace Compiler

/-- `Compiler::should_stop` (compiler/mod.rs lines 55-57). -/
def shouldStop (c : Compiler Tok) : Bool :=
  c.index ≥ c.input.length

/-- `Compiler::bump` (compiler/mod.rs lines 59-66).  The Rust method
mutates `self` and returns a `Result`; the pair returns the mutated
state together with a success flag. -/
def bump (c : Compiler Tok) : Compiler Tok × Bool :=
  if c.shouldStop then (c, false) else ({ c with index := c.index + 1 }, true)

/-- `Compiler::push_opcode` (compiler/mod.rs lines 258-260). -/
def pushOpcode (c : Compiler Tok) (op : Opcode) : Compiler Tok :=
  { c with output := c.output ++ [op.to_u8] }

/-- `Compiler::require` (compiler/mod.rs lines 249-256): push the
`Push(1)` opcode, the literal byte 1, `Jumpifnot` and `Terminate`, then
bump past the `require` token. -/
def require (c : Compiler Tok) : Compiler Tok × Bool :=
  let c := c.pushOpcode (.Push 1)
  let c := { c with output := c.output ++ [1] }
  let c := c.pushOpcode .Jumpifnot
  let c := c.pushOpcode .Terminate
  c.bump

end Compiler

/-- C9 counterexample: the claim's reading of the emitted sequence is
inverted.  Running `Push(1) 0` followed by the require lowering
`[0x07, 0x01, 0xb4, 0x00]`: with the tested value 0 on top, `Jumpifnot`
does not jump (it jumps only on a non-zero condition, language.rs lines
381-394), so `Terminate` executes and the VM ends terminated — the
claim says a zero value jumps past the `Terminate`.  With the non-zero
value 3 on top the VM jumps over `Terminate` and ends not terminated —
the claim says a non-zero value terminates execution. -/
theorem require_jumpifnot_counterexample :
    (execute sha0 kv0 [0x07, 0, 0x07, 0x01, 0xb4, 0x00] []).map
        (fun vm => (vm.terminated, vm.index)) = some (true, 6) ∧
    (execute sha0 kv0 [0x07, 3, 0x07, 0x01, 0xb4, 0x00] []).map
        (fun vm => (vm.terminated, vm.index)) = some (false, 6) := by
  refine ⟨by decide, by decide⟩

/-! ### List access helpers used by the VM step lemmas -/

theorem getD_set_self (l : List Nat) (i v : Nat) (h : i < l.length) :
    (l.set i v).getD i 0 = v := by
  simp [List.getD_eq_getElem?_getD, List.getElem?_set_self, h]

theorem getD_set_ne (l : List Nat) (i j v : Nat) (h : i ≠ j) :
    (l.set i v).getD j 0 = l.getD j 0 := by
  simp [List.getD_eq_getElem?_getD, List.getElem?_set_ne h]

theorem drop_take_one (l : List Nat) (n : Nat) (h : n < l.length) :
    (l.drop n).take 1 = [l.getD n 0] := by
  rw [List.drop_eq_getElem_cons h, List.take_succ_cons, List.take_zero]
  rw [List.getD_eq_getElem?_getD, List.getElem?_eq_getElem h]
  rfl

theorem getD_mid (pre mid post : List Nat) (j : Nat) (hj : j < mid.length) :
    (pre ++ mid ++ post).getD (pre.length + j) 0 = mid.getD j 0 := by
  rw [List.append_assoc]
  rw [List.getD_append_right pre (mid ++ post) 0 (pre.length + j) (by omega)]
  have : pre.length + j - pre.length = j := by omega
  rw [this]
  exact List.getD_append mid post 0 j hj

/-- A VM positioned at the start of a lowered `require` sequence: the
code is any prefix `pre`, then the four require bytes, then any
continuation `post`, with the program counter at the first require
byte. -/
def requireVm (pre post : List Nat) (st : Stack) (strs : List (Nat × Nat))
    (ch : List Nat) : Vm :=
  { stack := st, opcodes := pre ++ [0x07, 0x01, 0xb4, 0x00] ++ post,
    index := pre.length, terminated := false, stores := strs, contractHash := ch }

theorem requireVm_code_length (pre post : List Nat) :
    (pre ++ [0x07, 0x01, 0xb4, 0x00] ++ post).length =
      pre.length + 4 + post.length := by
  simp [List.length_append]
  omega

theorem requireVm_step1 (sha3 : Sha3) (storage : KvGet)
    (pre post : List Nat) (st : Stack) (strs : List (Nat × Nat)) (ch : List Nat)
    (h32 : st.stackPos ≤ 32) :
    Vm.advance sha3 storage (requireVm pre post st strs ch) =
      .ok { stack := { st with stack := st.stack.set (st.stackPos - 1) 1,
                               stackPos := st.stackPos + 1 },
            opcodes := pre ++ [0x07, 0x01, 0xb4, 0x00] ++ post,
            index := pre.length + 2, terminated := false, stores := strs,
            contractHash := ch } := by
  have hcl := requireVm_code_length pre post
  have hb0 : (pre ++ [0x07, 0x01, 0xb4, 0x00] ++ post).getD pre.length 0 = 0x07 := by
    simpa using getD_mid pre [0x07, 0x01, 0xb4, 0x00] post 0 (by decide)
  have hb1 : (pre ++ [0x07, 0x01, 0xb4, 0x00] ++ post).getD (pre.length + 1) 0 = 0x01 :=
    getD_mid pre [0x07, 0x01, 0xb4, 0x00] post 1 (by decide)
  have hss : (requireVm pre post st strs ch).shouldStop = false := by
    simp [requireVm, Vm.shouldStop, hcl]
  unfold Vm.advance
  rw [hss]
  simp only [Bool.false_eq_true, if_false, requireVm]
  rw [hb0]
  have h7 : Opcode.from_u8 0x07 = some (.Push 1) := by decide
  rw [h7]
  simp only [bind, Except.bind]
  rw [if_neg (by simp only [hcl]; omega)]
  have harith : pre.length + 1 + 1 - 1 = pre.length + 1 := by omega
  rw [harith, drop_take_one _ _ (by omega), hb1]
  unfold Stack.push
  rw [if_neg (by omega)]
  rfl

theorem requireVm_step2_nonzero (sha3 : Sha3) (storage : KvGet)
    (pre post : List Nat) (st : Stack) (strs : List (Nat × Nat)) (ch : List Nat)
    (hlen : st.stack.length = 32) (h2 : 2 ≤ st.stackPos) (h32 : st.stackPos ≤ 32)
    (hv : st.stack.getD (st.stackPos - 2) 0 ≠ 0) :
    Vm.advance sha3 storage
      { stack := { st with stack := st.stack.set (st.stackPos - 1) 1,
                           stackPos := st.stackPos + 1 },
        opcodes := pre ++ [0x07, 0x01, 0xb4, 0x00] ++ post,
        index := pre.length + 2, terminated := false, stores := strs,
        contractHash := ch } =
      .ok { stack := { st with
              stack := ((st.stack.set (st.stackPos - 1) 1).set (st.stackPos - 1) 0).set
                (st.stackPos - 2) 0
              stackPos := st.stackPos - 1 },
            opcodes := pre ++ [0x07, 0x01, 0xb4, 0x00] ++ post,
            index := pre.length + 4, terminated := false, stores := strs,
            contractHash := ch } := by
  have hcl := requireVm_code_length pre post
  have hb2 : (pre ++ [0x07, 0x01, 0xb4, 0x00] ++ post).getD (pre.length + 2) 0 = 0xb4 :=
    getD_mid pre [0x07, 0x01, 0xb4, 0x00] post 2 (by decide)
  unfold Vm.advance
  rw [if_neg (by simp [Vm.shouldStop, hcl])]
  simp only []
  rw [hb2]
  have hj : Opcode.from_u8 0xb4 = some .Jumpifnot := by decide
  rw [hj]
  simp only [bind, Except.bind]
  unfold Stack.pop
  rw [if_neg (by simp; omega)]
  simp only []
  rw [show st.stackPos + 1 - 2 = st.stackPos - 1 from by omega]
  rw [getD_set_self st.stack (st.stackPos - 1) 1 (by omega)]
  rw [if_neg (by simp; omega)]
  simp only []
  rw [getD_set_ne _ _ _ _ (by omega), getD_set_ne _ _ _ _ (by omega)]
  rw [show st.stackPos + 1 - 1 - 2 = st.stackPos - 2 from by omega]
  rw [if_pos hv]
  rw [if_pos (by rw [hcl]; omega)]
  rfl

theorem requireVm_step2_zero (sha3 : Sha3) (storage : KvGet)
    (pre post : List Nat) (st : Stack) (strs : List (Nat × Nat)) (ch : List Nat)
    (hlen : st.stack.length = 32) (h2 : 2 ≤ st.stackPos) (h32 : st.stackPos ≤ 32)
    (hv : st.stack.getD (st.stackPos - 2) 0 = 0) :
    Vm.advance sha3 storage
      { stack := { st with stack := st.stack.set (st.stackPos - 1) 1,
                           stackPos := st.stackPos + 1 },
        opcodes := pre ++ [0x07, 0x01, 0xb4, 0x00] ++ post,
        index := pre.length + 2, terminated := false, stores := strs,
        contractHash := ch } =
      .ok { stack := { st with
              stack := ((st.stack.set (st.stackPos - 1) 1).set (st.stackPos - 1) 0).set
                (st.stackPos - 2) 0
              stackPos := st.stackPos - 1 },
            opcodes := pre ++ [0x07, 0x01, 0xb4, 0x00] ++ post,
            index := pre.length + 3, terminated := false, stores := strs,
            contractHash := ch } := by
  have hcl := requireVm_code_length pre post
  have hb2 : (pre ++ [0x07, 0x01, 0xb4, 0x00] ++ post).getD (pre.length + 2) 0 = 0xb4 :=
    getD_mid pre [0x07, 0x01, 0xb4, 0x00] post 2 (by decide)
  unfold Vm.advance
  rw [if_neg (by simp [Vm.shouldStop, hcl])]
  simp only []
  rw [hb2]
  have hj : Opcode.from_u8 0xb4 = some .Jumpifnot := by decide
  rw [hj]
  simp only [bind, Except.bind]
  unfold Stack.pop
  rw [if_neg (by simp; omega)]
  simp only []
  rw [show st.stackPos + 1 - 2 = st.stackPos - 1 from by omega]
  rw [getD_set_self st.stack (st.stackPos - 1) 1 (by omega)]
  rw [if_neg (by simp; omega)]
  simp only []
  rw [getD_set_ne _ _ _ _ (by omega), getD_set_ne _ _ _ _ (by omega)]
  rw [show st.stackPos + 1 - 1 - 2 = st.stackPos - 2 from by omega]
  rw [if_neg (by simp only [ne_eq, not_not, hv])]
  rfl

theorem requireVm_step3_zero (sha3 : Sha3) (storage : KvGet)
    (pre post : List Nat) (s : Stack) (strs : List (Nat × Nat)) (ch : List Nat) :
    Vm.advance sha3 storage
      { stack := s, opcodes := pre ++ [0x07, 0x01, 0xb4, 0x00] ++ post,
        index := pre.length + 3, terminated := false, stores := strs,
        contractHash := ch } =
      .ok { stack := s, opcodes := pre ++ [0x07, 0x01, 0xb4, 0x00] ++ post,
            index := pre.length + 4, terminated := true, stores := strs,
            contractHash := ch } := by
  have hcl := requireVm_code_length pre post
  have hb3 : (pre ++ [0x07, 0x01, 0xb4, 0x00] ++ post).getD (pre.length + 3) 0 = 0x00 :=
    getD_mid pre [0x07, 0x01, 0xb4, 0x00] post 3 (by decide)
  unfold Vm.advance
  rw [if_neg (by simp [Vm.shouldStop, hcl])]
  simp only []
  rw [hb3]
  have ht : Opcode.from_u8 0x00 = some .Terminate := by decide
  rw [ht]

/-- The stack left behind by the `Push(1)`/`Jumpifnot` pair of a
lowered `require`: the offset slot was written and cleared again and
the tested value's slot was cleared by the second pop. -/
def requireStackAfter (st : Stack) : Stack :=
  { st with
    stack := ((st.stack.set (st.stackPos - 1) 1).set (st.stackPos - 1) 0).set
      (st.stackPos - 2) 0
    stackPos := st.stackPos - 1 }

/-- C9 (amended): lowering a `require` statement appends exactly the
four bytes `[0x07, 0x01, 0xb4, 0x00]` — `Push(1)`, the literal byte 1,
`Jumpifnot`, `Terminate` — to the output code vector, leaving all
previously emitted bytes unchanged; combined with the VM's `Jumpifnot`
semantics this terminates execution when the value on top is zero and
jumps past the `Terminate` when it is non-zero (the direction claimed
by the spec is inverted, see `require_jumpifnot_counterexample`). -/
theorem require_lowering_and_semantics :
    (∀ (Tok : Type) (c : Compiler Tok),
        ((Compiler.require c).1).output = c.output ++ [0x07, 0x01, 0xb4, 0x00]) ∧
    (∀ (sha3 : Sha3) (storage : KvGet) (pre post : List Nat) (st : Stack)
        (strs : List (Nat × Nat)) (ch : List Nat),
        st.stack.length = 32 → 2 ≤ st.stackPos → st.stackPos ≤ 32 →
        ((st.stack.getD (st.stackPos - 2) 0 = 0 →
          ∃ vm', (do
              let a ← Vm.advance sha3 storage (requireVm pre post st strs ch)
              let b ← Vm.advance sha3 storage a
              Vm.advance sha3 storage b) = .ok vm' ∧
            vm'.terminated = true ∧ vm'.index = pre.length + 4) ∧
         (st.stack.getD (st.stackPos - 2) 0 ≠ 0 →
          ∃ vm', (do
              let a ← Vm.advance sha3 storage (requireVm pre post st strs ch)
              Vm.advance sha3 storage a) = .ok vm' ∧
            vm'.terminated = false ∧ vm'.index = pre.length + 4))) := by
  constructor
  · intro Tok c
    simp only [Compiler.require, Compiler.pushOpcode, Compiler.bump, Opcode.to_u8]
    split <;> simp [List.append_assoc]
  · intro sha3 storage pre post st strs ch hlen h2 h32
    constructor
    · intro hv
      refine ⟨{ stack := requireStackAfter st,
                opcodes := pre ++ [0x07, 0x01, 0xb4, 0x00] ++ post,
                index := pre.length + 4, terminated := true, stores := strs,
                contractHash := ch }, ?_, rfl, rfl⟩
      show (Vm.advance sha3 storage (requireVm pre post st strs ch) >>= fun a =>
        Vm.advance sha3 storage a >>= fun b => Vm.advance sha3 storage b) = _
      rw [requireVm_step1 sha3 storage pre post st strs ch h32]
      simp only [bind, Except.bind]
      rw [requireVm_step2_zero sha3 storage pre post st strs ch hlen h2 h32 hv]
      exact requireVm_step3_zero sha3 storage pre post (requireStackAfter st) strs ch
    · intro hv
      refine ⟨{ stack := requireStackAfter st,
                opcodes := pre ++ [0x07, 0x01, 0xb4, 0x00] ++ post,
                index := pre.length + 4, terminated := false, stores := strs,
                contractHash := ch }, ?_, rfl, rfl⟩
      show (Vm.advance sha3 storage (requireVm pre post st strs ch) >>= fun a =>
        Vm.advance sha3 storage a) = _
      rw [requireVm_step1 sha3 storage pre post st strs ch h32]
      simp only [bind, Except.bind]
      rw [requireVm_step2_nonzero sha3 storage pre post st strs ch hlen h2 h32 hv]
      rfl

/-- Witness for `require_lowering_and_semantics` at concrete inputs:
compiler state with one already-emitted byte `0x05`, and a VM whose
stack holds the single non-zero value 5. -/
theorem require_lowering_and_semantics_witness :
    ((Compiler.require ({ input := [], index := 0, output := [0x05] } : Compiler Nat)).1).output
        = [0x05] ++ [0x07, 0x01, 0xb4, 0x00] ∧
    stackOne5.stack.getD (stackOne5.stackPos - 2) 0 ≠ 0 ∧
    (∃ vm', (do
        let a ← Vm.advance sha0 kv0 (requireVm [] [] stackOne5 [] [])
        Vm.advance sha0 kv0 a) = .ok vm' ∧
      vm'.terminated = false ∧ vm'.index = ([] : List Nat).length + 4) := by
  refine ⟨require_lowering_and_semantics.1 Nat _, by decide, ?_⟩
  exact (require_lowering_and_semantics.2 sha0 kv0 [] [] stackOne5 [] []
    (by decide) (by decide) (by decide)).2 (by decide)

/-! ### Native contracts (src/src/contracts/native.rs) and contract
records (src/src/contracts/mod.rs, `ContractStorage`) -/

/-- UTF-8 bytes of a string (`str::as_bytes`), as code points: the keys
and values below only use ASCII names, for which the two coincide. -/
def strBytes (s : String) : List Nat :=
  s.toList.map Char.toNat

/-- The byte-keyed KV store holding contract records, modelled with the
key's string form (`[name.as_bytes(), b"author"].concat()` becomes
`name ++ "author"` etc.). -/
def Store : Type := String → Option (List Nat)

/-- `Storage::set` on the contract-record store. -/
def Store.set (kv : Store) (k : String) (v : List Nat) : Store :=
  fun x => if x = k then some v else kv x

/-- `ContractStorage::get_author` (contracts/mod.rs lines 162-165):
read the key `name || "author"`. -/
def get_author (kv : Store) (name : String) : Option (List Nat) :=
  kv (name ++ "author")

/-- `ContractStorage::add_contract` (contracts/mod.rs lines 138-146):
write entrypoint, schema and author under `name || suffix` keys. -/
def add_contract (kv : Store) (name code schema : String)
    (author : List Nat) : Store :=
  ((kv.set (name ++ "entrypoint") (strBytes code)).set
      (name ++ "schema") (strBytes schema)).set
    (name ++ "author") author

/-- A native `add` request: the dispatching `ContractRequest`'s outer
contract name (`job.name`, which is `"native"` whenever
`execute_native` runs, see the dispatch in `executer_thread`,
contracts/mod.rs line 320-321), the pre-verified 32-byte author, and
the `name`/`code`/`schema` string arguments.  Carrying the three
arguments as typed strings makes the
`validate_schema("name:str;code:str;schema:str")` pass of the source
hold by construction. -/
structure AddJob where
  author : List Nat
  name : String
  reqName : String
  reqCode : String
  reqSchema : String

/-- The `"add"` arm of `execute_native` (native.rs lines 18-42):
author check on `job.name`, schema validation, compile
(`engine.compile`, kept abstract as the `compileOk` predicate), then
`add_contract` under the `name` argument.  The in-memory compile-cache
insertion has no KV effect and is not modelled. -/
def executeNativeAdd (compileOk : String → Bool) (kv : Store)
    (job : AddJob) : Option Store :=
  let proceed : Option Store :=
    if compileOk job.reqCode then
      some (add_contract kv job.reqName job.reqCode job.reqSchema job.author)
    else none
  match get_author kv job.name with
  | some original_author => if job.author ≠ original_author then none else proceed
  | none => proceed

/-- A sample stored author key (32 bytes of 1). -/
def authorA : List Nat := List.replicate 32 1

/-- A different caller key (32 bytes of 2). -/
def authorB : List Nat := List.replicate 32 2

/-- A store in which contract `"ginger"` has recorded author
`authorA`. -/
def kvGinger : Store :=
  ((Store.set (fun _ => none) "gingerentrypoint" (strBytes "old")).set
      "gingerschema" (strBytes "olds")).set "gingerauthor" authorA

/-- C1: the author check of a native `add` reads
`get_author(job.name)`, and `job.name` is the outer dispatch name
`"native"`, not the `name` field of the request arguments.  With
`"ginger"` recorded under author `authorA`, an `add` request by the
different author `authorB` targeting `"ginger"` is accepted (no author
is recorded under `"nativeauthor"`), and it silently replaces
`"ginger"`'s entrypoint, schema and author. -/
theorem native_add_author_check_uses_dispatch_name :
    get_author kvGinger "ginger" = some authorA ∧
    authorB ≠ authorA ∧
    (executeNativeAdd (fun _ => true) kvGinger
        { author := authorB, name := "native", reqName := "ginger",
          reqCode := "newcode", reqSchema := "news" }).map
        (fun kv => (get_author kv "ginger", kv "gingerentrypoint"))
      = some (some authorB, some (strBytes "newcode")) := by
  refine ⟨by decide, by decide, by decide⟩

/-- The native balance segments (`"native" || account` keys holding
`{"balance": u64}` records, native.rs `native_get_segment` /
`native_set_segment`): a map from account name to its u64 balance. -/
def NStore : Type := String → Option Nat

/-- `ContractStorage::native_set_segment` writing a balance record. -/
def NStore.set (kv : NStore) (k : String) (v : Nat) : NStore :=
  fun x => if x = k then some v else kv x

/-- `teral_transfer` (native.rs lines 49-80): read `from`'s record
(reject when absent), reject when `amount > balance`, write the debited
`from` record, then read `to`'s record — after the debit write — and
either credit it or create it with the amount.  The credit addition is
u64 arithmetic and wraps modulo `2 ^ 64` (release-mode semantics); the
debit cannot underflow because of the guard.  The pair returns the
success flag together with the storage after the performed writes; both
failure paths return before any write. -/
def teral_transfer (kv : NStore) (fromAcc toAcc : String) (amount : Nat) :
    Bool × NStore :=
  match kv fromAcc with
  | none => (false, kv)
  | some fromBal =>
    if amount > fromBal then (false, kv)
    else
      let kv1 := kv.set fromAcc (fromBal - amount)
      match kv1 toAcc with
      | some toBal => (true, kv1.set toAcc ((toBal + amount) % 2 ^ 64))
      | none => (true, kv1.set toAcc amount)

theorem NStore.set_self (kv : NStore) (k : String) (v : Nat) :
    kv.set k v k = some v := by
  simp [NStore.set]

theorem NStore.set_ne (kv : NStore) (k x : String) (v : Nat) (h : x ≠ k) :
    kv.set k v x = kv x := by
  simp [NStore.set, h]

/-- A store exposing the u64 wrap-around of the credit branch: `"a"`
holds 1 and `"b"` holds the maximal u64 balance. -/
def kvOverflow : NStore :=
  NStore.set (NStore.set (fun _ => none) "a" 1) "b" (2 ^ 64 - 1)

/-- C5 counterexample: `teral_transfer("a", "b", 1)` succeeds on
`kvOverflow`, but `"b"`'s stored balance afterwards is 0, not the
claimed `old + 1 = 2 ^ 64`: the u64 credit `to.balance + amount` wraps
around. -/
theorem transfer_credit_overflow_wraps :
    (teral_transfer kvOverflow "a" "b" 1).1 = true ∧
    (teral_transfer kvOverflow "a" "b" 1).2 "b" = some 0 ∧
    (2 ^ 64 - 1) + 1 ≠ 0 := by
  refine ⟨by decide, by decide, by decide⟩

/-- C5 (amended): for distinct accounts, a successful
`teral_transfer(from, to, n)` debits `from` by exactly n and sets `to`
to `(old + n) mod 2 ^ 64` — equal to `old + n` whenever the sum fits in
64 bits — creating the record with balance n when it was absent, and
touches no other account; a failed transfer (absent `from` record or
insufficient balance) performs no write at all. -/
theorem transfer_conservation_mod64 (kv : NStore) (fromAcc toAcc : String)
    (n : Nat) (hne : fromAcc ≠ toAcc) :
    ((teral_transfer kv fromAcc toAcc n).1 = true →
      ∃ fb, kv fromAcc = some fb ∧ n ≤ fb ∧
        (teral_transfer kv fromAcc toAcc n).2 fromAcc = some (fb - n) ∧
        (teral_transfer kv fromAcc toAcc n).2 toAcc =
          some (match kv toAcc with
                | some tb => (tb + n) % 2 ^ 64
                | none => n) ∧
        (∀ x, x ≠ fromAcc → x ≠ toAcc →
          (teral_transfer kv fromAcc toAcc n).2 x = kv x)) ∧
    ((teral_transfer kv fromAcc toAcc n).1 = false →
      (teral_transfer kv fromAcc toAcc n).2 = kv ∧
      (kv fromAcc = none ∨ ∃ fb, kv fromAcc = some fb ∧ fb < n)) := by
  have hto : kv.set fromAcc ((kv fromAcc).getD 0 - n) toAcc = kv toAcc :=
    NStore.set_ne kv fromAcc toAcc _ (Ne.symm hne)
  cases hfa : kv fromAcc with
  | none =>
    refine ⟨?_, ?_⟩
    · intro h
      simp [teral_transfer, hfa] at h
    · intro _
      exact ⟨by simp [teral_transfer, hfa], Or.inl rfl⟩
  | some fb =>
    by_cases hamt : n > fb
    · refine ⟨?_, ?_⟩
      · intro h
        simp [teral_transfer, hfa, hamt] at h
      · intro _
        exact ⟨by simp [teral_transfer, hfa, hamt], Or.inr ⟨fb, rfl, hamt⟩⟩
    · refine ⟨?_, ?_⟩
      · intro _
        refine ⟨fb, rfl, by omega, ?_, ?_, ?_⟩
        · show (teral_transfer kv fromAcc toAcc n).2 fromAcc = _
          unfold teral_transfer
          rw [hfa]
          simp only [gt_iff_lt, hamt, if_false]
          rw [NStore.set_ne kv fromAcc toAcc (fb - n) (Ne.symm hne)]
          cases htb : kv toAcc <;>
            simp [NStore.set_ne _ toAcc fromAcc _ hne, NStore.set_self]
        · show (teral_transfer kv fromAcc toAcc n).2 toAcc = _
          unfold teral_transfer
          rw [hfa]
          simp only [gt_iff_lt, hamt, if_false]
          rw [NStore.set_ne kv fromAcc toAcc (fb - n) (Ne.symm hne)]
          cases htb : kv toAcc <;> simp [NStore.set_self]
        · intro x hxf hxt
          show (teral_transfer kv fromAcc toAcc n).2 x = kv x
          unfold teral_transfer
          rw [hfa]
          simp only [gt_iff_lt, hamt, if_false]
          rw [NStore.set_ne kv fromAcc toAcc (fb - n) (Ne.symm hne)]
          cases htb : kv toAcc <;>
            simp [NStore.set_ne _ toAcc x _ hxt, NStore.set_ne _ fromAcc x _ hxf]
      · intro h
        exfalso
        revert h
        unfold teral_transfer
        rw [hfa]
        simp only [gt_iff_lt, hamt, if_false]
        rw [NStore.set_ne kv fromAcc toAcc (fb - n) (Ne.symm hne)]
        cases htb : kv toAcc <;> simp

/-- A store for the conservation witness: `"a"` holds 10, `"b"` is
absent. -/
def kvW : NStore := NStore.set (fun _ => none) "a" 10

/-- Witness for `transfer_conservation_mod64`: transferring 3 from
`"a"` (balance 10) to the absent `"b"` leaves 7 and creates 3. -/
theorem transfer_conservation_mod64_witness :
    (teral_transfer kvW "a" "b" 3).2 "a" = some 7 ∧
    (teral_transfer kvW "a" "b" 3).2 "b" = some 3 := by
  have h := (transfer_conservation_mod64 kvW "a" "b" 3 (by decide)).1 (by decide)
  obtain ⟨fb, hfb, -, hfrom, hto, -⟩ := h
  have h10 : kvW "a" = some 10 := by decide
  rw [h10] at hfb
  obtain rfl : fb = 10 := (Option.some.inj hfb).symm
  have hb : kvW "b" = none := by decide
  rw [hb] at hto
  exact ⟨hfrom, hto⟩

/-- C10: a self-transfer `teral_transfer(x, x, n)` with an existing
record `balance(x) = b`, `n ≤ b` (and `b` a u64 value) succeeds and
leaves the balance unchanged: the debit writes `b - n`, and the credit
branch re-reads the already-debited record and writes back
`(b - n) + n = b`; no other account is touched. -/
theorem transfer_self_is_noop (kv : NStore) (x : String) (b n : Nat)
    (hb : kv x = some b) (hn : n ≤ b) (hb64 : b < 2 ^ 64) :
    (teral_transfer kv x x n).1 = true ∧
    (teral_transfer kv x x n).2 x = some b ∧
    (∀ y, y ≠ x → (teral_transfer kv x x n).2 y = kv y) := by
  have hread : kv.set x (b - n) x = some (b - n) := NStore.set_self kv x (b - n)
  have harith : (b - n + n) % 2 ^ 64 = b := by
    rw [Nat.sub_add_cancel hn]
    exact Nat.mod_eq_of_lt hb64
  refine ⟨?_, ?_, ?_⟩
  · unfold teral_transfer
    rw [hb]
    simp only [gt_iff_lt, if_neg (by omega : ¬ b < n)]
    rw [hread]
  · show (teral_transfer kv x x n).2 x = some b
    unfold teral_transfer
    rw [hb]
    simp only [gt_iff_lt, if_neg (by omega : ¬ b < n)]
    rw [hread]
    simp only [NStore.set_self, harith]
  · intro y hy
    show (teral_transfer kv x x n).2 y = kv y
    unfold teral_transfer
    rw [hb]
    simp only [gt_iff_lt, if_neg (by omega : ¬ b < n)]
    rw [hread]
    simp [NStore.set_ne _ x y _ hy]

/-- Witness for `transfer_self_is_noop`: a self-transfer of 4 on an
account holding 10 succeeds and leaves 10. -/
theorem transfer_self_is_noop_witness :
    (teral_transfer kvW "a" "a" 4).1 = true ∧
    (teral_transfer kvW "a" "a" 4).2 "a" = some 10 ∧
    (∀ y, y ≠ "a" → (teral_transfer kvW "a" "a" 4).2 y = kvW y) :=
  transfer_self_is_noop kvW "a" 10 4 (by decide) (by decide) (by decide)

/-! ### Validator summary (src/src/contracts/mod.rs, `ContractExecuter`) -/

/-- One iteration of the `summary` drain loop (contracts/mod.rs lines
406-415) applied to a received receipt: an ok receipt leaves the
provisional list alone, a rejection runs `valid.remove(response.id)` —
`Vec::remove` takes a position, shifts the tail left, and panics
(`none`) when the position is out of bounds. -/
def summaryStep (valid : List Nat) (response : Nat × Bool) : Option (List Nat) :=
  if response.2 then some valid
  else if response.1 < valid.length then some (valid.eraseIdx response.1)
  else none

/-- The `summary` drain (contracts/mod.rs lines 406-415) over the
receipts actually received, in channel order: requests are represented
by their assigned ids, and the provisional `valid` list after
scheduling k requests is `[0, 1, …, k-1]` (ids are assigned as
positions by `schedule`, lines 399-404). -/
def summaryModel (responses : List (Nat × Bool)) (valid : List Nat) :
    Option (List Nat) :=
  responses.foldlM summaryStep valid

/-- C3: `summary` removes by position, not by request id.  With three
scheduled requests (ids 0, 1, 2) and receipts rejecting ids 0 and 1,
the code removes position 0 (request 0) and then position 1 — which
after the shift is request 2 — so the rejected request 1 survives and
the accepted request 2 is dropped; the claimed survivor list is `[2]`.
With receipts rejecting ids 0 and 2, the second `Vec::remove(2)` is out
of bounds on the shrunken 2-element list and panics. -/
theorem summary_removes_by_position_not_id :
    summaryModel [(0, false), (1, false)] [0, 1, 2] = some [1] ∧
    some [1] ≠ some [2] ∧
    summaryModel [(0, false), (2, false)] [0, 1, 2] = none := by
  refine ⟨by decide, by decide, by decide⟩

/-! ### Block building (src/src/chain/mod.rs) -/

/-- A block receipt, from `struct ContractRecipt` (chain/mod.rs lines
30-35): contract name, method name, and the `serde_json::to_string`
serialization of the request arguments (the canonical text the hasher
consumes, kept as a string). -/
structure ContractRecipt where
  contract_name : String
  contract_method : String
  reqSer : String
deriving DecidableEq, Repr

/-- Big-endian `i64::to_be_bytes` of the millisecond timestamp, on its
two's-complement u64 image. -/
def i64BeBytes (t : Int) : List Nat :=
  (List.range 8).map fun i => (t.emod (2 ^ 64)).toNat / 256 ^ (7 - i) % 256

/-- `hash_recipts` (chain/mod.rs lines 13-28): one hasher over the
concatenation, per receipt, of `contract_name || contract_method ||
to_string(req)`, followed by `time.to_be_bytes()`.  The SHA3-256
hasher itself is the abstract digest function `sha3` over the
accumulated input bytes.  `previous_digest` is not part of the
preimage. -/
def hash_recipts (sha3 : Sha3) (recipts : List ContractRecipt) (time : Int) :
    List Nat :=
  sha3
    ((recipts.foldl
        (fun acc r =>
          acc ++ strBytes (r.contract_name ++ r.contract_method ++ r.reqSer))
        []) ++ i64BeBytes time)

/-- `struct Block` (chain/mod.rs lines 51-57). -/
structure Block where
  digest : List Nat
  previous_digest : List Nat
  recipts : List ContractRecipt
  time : Int

/-- `BlockBuilder::build` (chain/mod.rs lines 147-157): hash the
transactions with the current time and store `previous_digest`
alongside; the timestamp sampled from `Utc::now()` is the explicit
argument `time`. -/
def buildBlock (sha3 : Sha3) (transactions : List ContractRecipt)
    (time : Int) (previous_digest : List Nat) : Block :=
  { digest := hash_recipts sha3 transactions time
    previous_digest := previous_digest
    recipts := transactions
    time := time }

/-- C8: the 32-byte block digest is a pure function of the ordered
receipt list and the timestamp: two builds over equal receipts and
equal times yield the same digest whatever `previous_digest` each is
given — `hash_recipts` never reads the previous digest. -/
theorem build_digest_pure_in_recipts_and_time (sha3 : Sha3)
    (recipts : List ContractRecipt) (time : Int) (p₁ p₂ : List Nat) :
    (buildBlock sha3 recipts time p₁).digest =
      (buildBlock sha3 recipts time p₂).digest := rfl

/-! ### Per-contract request queue (src/src/contracts/mod.rs,
`ContractQueue`) -/

/-- One interaction with the queue: `add name rid` is
`ContractQueue::add` of a request with id `rid` for contract `name`
(contracts/mod.rs lines 223-235, a `Vec::push` onto the per-name list);
`deq name` is a `get_and_maybe_delete` call whose scan selected
contract `name` (lines 202-221, a `Vec::pop` from that list — which
entry the `HashMap` scan selects is scheduler nondeterminism, so the
selected name is the operation's parameter). -/
inductive QOp where
  | add (name : String) (rid : Nat)
  | deq (name : String)

/-- The per-contract pending lists: each request id is paired with the
global sequence number of its `add`, so "more recently added" is
"larger first component".  Dropping an emptied map entry (the `remove`
in `get_and_maybe_delete`) does not change any list and is not
modelled. -/
def QMap : Type := String → List (Nat × Nat)

/-- The empty queue. -/
def qempty : QMap := fun _ => []

/-- `ContractQueue::add`: push at the end of the per-name list. -/
def qadd (q : QMap) (c : String) (e : Nat × Nat) : QMap :=
  fun x => if x = c then q x ++ [e] else q x

/-- The request returned by a `get_and_maybe_delete` that selected
contract `c`: `Vec::pop` returns the last element. -/
def qpopped (q : QMap) (c : String) : Option (Nat × Nat) :=
  (q c).getLast?

/-- The queue after that pop: `Vec::pop` removes the last element. -/
def qafterPop (q : QMap) (c : String) : QMap :=
  fun x => if x = c then (q x).dropLast else q x

/-- Run a sequence of queue operations from state `q`, stamping each
`add` with the running clock `t`. -/
def runQueue : Nat → QMap → List QOp → QMap
  | _, q, [] => q
  | t, q, .add c r :: ops => runQueue (t + 1) (qadd q c (t, r)) ops
  | t, q, .deq c :: ops => runQueue (t + 1) (qafterPop q c) ops

/-- Invariant: every per-name pending list is strictly increasing in
add-sequence numbers (adds append a fresh maximum, pops drop a
suffix element). -/
theorem runQueue_pairwise (ops : List QOp) :
    ∀ (t : Nat) (q : QMap),
      (∀ c, (q c).Pairwise (fun a b => a.1 < b.1) ∧ ∀ e ∈ q c, e.1 < t) →
      ∀ c, ((runQueue t q ops) c).Pairwise (fun a b => a.1 < b.1) ∧
        ∀ e ∈ (runQueue t q ops) c, e.1 < t + ops.length := by
  induction ops with
  | nil =>
    intro t q h c
    exact ⟨(h c).1, fun e he => by have := (h c).2 e he; omega⟩
  | cons op rest ih =>
    intro t q h c
    have hstep : ∀ q' : QMap,
        (∀ c', (q' c').Pairwise (fun a b => a.1 < b.1) ∧ ∀ e ∈ q' c', e.1 < t + 1) →
        ((runQueue (t + 1) q' rest) c).Pairwise (fun a b => a.1 < b.1) ∧
          ∀ e ∈ (runQueue (t + 1) q' rest) c, e.1 < t + (op :: rest).length := by
      intro q' h'
      refine ⟨(ih (t + 1) q' h' c).1, fun e he => ?_⟩
      have := (ih (t + 1) q' h' c).2 e he
      simp only [List.length_cons]
      omega
    cases op with
    | add c' r =>
      show ((runQueue (t + 1) (qadd q c' (t, r)) rest) c).Pairwise _ ∧ _
      apply hstep
      intro c''
      unfold qadd
      by_cases hc : c'' = c'
      · subst hc
        rw [if_pos rfl]
        constructor
        · rw [List.pairwise_append]
          refine ⟨(h c'').1, List.pairwise_singleton _ _, ?_⟩
          intro a ha b hb
          have := (h c'').2 a ha
          simp only [List.mem_singleton] at hb
          subst hb
          omega
        · intro e he
          rcases List.mem_append.mp he with h1 | h1
          · have := (h c'').2 e h1
            omega
          · simp only [List.mem_singleton] at h1
            subst h1
            omega
      · simp only [if_neg hc]
        exact ⟨(h c'').1, fun e he => by have := (h c'').2 e he; omega⟩
    | deq c' =>
      show ((runQueue (t + 1) (qafterPop q c') rest) c).Pairwise _ ∧ _
      apply hstep
      intro c''
      unfold qafterPop
      by_cases hc : c'' = c'
      · subst hc
        rw [if_pos rfl]
        constructor
        · exact ((h c'').1).sublist (List.dropLast_sublist _)
        · intro e he
          have := (h c'').2 e ((List.dropLast_sublist _).mem he)
          omega
      · simp only [if_neg hc]
        exact ⟨(h c'').1, fun e he => by have := (h c'').2 e he; omega⟩

/-- C7: after any sequence of queue operations, a dequeue that selects
contract `c` hands out the pending request for `c` with the greatest
add-sequence number — the most recently added still-pending request —
and removes exactly it (LIFO): `Vec::pop` returns the last element of
the per-name list, and that list is strictly increasing in add order. -/
theorem queue_pop_returns_most_recent (ops : List QOp) (c : String)
    (e : Nat × Nat) (h : qpopped (runQueue 0 qempty ops) c = some e) :
    e ∈ (runQueue 0 qempty ops) c ∧
    (∀ e' ∈ (runQueue 0 qempty ops) c, e' ≠ e → e'.1 < e.1) ∧
    qafterPop (runQueue 0 qempty ops) c c =
      ((runQueue 0 qempty ops) c).dropLast := by
  obtain ⟨l', hl⟩ := List.getLast?_eq_some_iff.mp h
  have hpw : ((runQueue 0 qempty ops) c).Pairwise (fun a b => a.1 < b.1) :=
    (runQueue_pairwise ops 0 qempty
      (fun c' => ⟨List.Pairwise.nil, by simp [qempty]⟩) c).1
  rw [hl] at hpw ⊢
  rw [List.pairwise_append] at hpw
  refine ⟨List.mem_append.mpr (Or.inr (List.mem_singleton.mpr rfl)), ?_, ?_⟩
  · intro e' he' hne
    rcases List.mem_append.mp he' with h1 | h1
    · exact hpw.2.2 e' h1 e (List.mem_singleton.mpr rfl)
    · exact absurd (List.mem_singleton.mp h1) hne
  · simp [qafterPop, hl]

/-- Witness for `queue_pop_returns_most_recent`: after adding request
10 for `"c"`, request 5 for `"d"` and request 11 for `"c"`, a dequeue
selecting `"c"` returns the entry stamped 2 (request 11), the latest
add for `"c"`. -/
theorem queue_pop_returns_most_recent_witness :
    (2, 11) ∈ runQueue 0 qempty
        [QOp.add "c" 10, QOp.add "d" 5, QOp.add "c" 11] "c" ∧
    (∀ e' ∈ runQueue 0 qempty
        [QOp.add "c" 10, QOp.add "d" 5, QOp.add "c" 11] "c",
      e' ≠ (2, 11) → e'.1 < 2) ∧
    qafterPop (runQueue 0 qempty
        [QOp.add "c" 10, QOp.add "d" 5, QOp.add "c" 11]) "c" "c" =
      (runQueue 0 qempty
        [QOp.add "c" 10, QOp.add "d" 5, QOp.add "c" 11] "c").dropLast :=
  queue_pop_returns_most_recent
    [QOp.add "c" 10, QOp.add "d" 5, QOp.add "c" 11] "c" (2, 11) (by decide)

end Teral
